import Mathlib

/-!
Shallow embedding of the polyphonic voice pool (`Tone.PolySynth`) and the
feedback-routing wrapper (`Tone.FeedbackEffect`) from
`src/r3/Tone/effect/FeedbackEffect.js`, together with proofs about the
voice-allocation discipline they implement.
-/

namespace Tone

/-- JSON-like note-identity values: a note identity may be a string name,
a numeric pitch, an array, or a structured descriptor (a JS object).
These are the values a caller may pass as `value` to `triggerAttack` /
`triggerRelease`. -/
inductive JsonVal where
  | str (s : String)
  | num (n : Int)
  | arr (elems : List JsonVal)
  | obj (fields : List (String × JsonVal))

mutual

/-- Model of `JSON.stringify` restricted to the value shapes of `JsonVal`:
the structural serialization used at lines 175 and 215 of the source to
canonicalize a note identity into an `_activeVoices` key. -/
def stringify : JsonVal → String
  | JsonVal.str s => "\"" ++ s ++ "\""
  | JsonVal.num n => toString n
  | JsonVal.arr es => "[" ++ stringifyElems es ++ "]"
  | JsonVal.obj fs => "\x7b" ++ stringifyFields fs ++ "\x7d"

/-- Comma-separated serialization of array elements. -/
def stringifyElems : List JsonVal → String
  | [] => ""
  | [e] => stringify e
  | e :: es => stringify e ++ "," ++ stringifyElems es

/-- Comma-separated serialization of object fields. -/
def stringifyFields : List (String × JsonVal) → String
  | [] => ""
  | [(k, v)] => "\"" ++ k ++ "\":" ++ stringify v
  | (k, v) :: fs => "\"" ++ k ++ "\":" ++ stringify v ++ "," ++ stringifyFields fs

end

/-- A call forwarded by the pool to an individual voice.  A Voice is an
external collaborator (`Tone.MonoSynth` by default); the pool only routes
calls to it, so a voice is modelled by the log of calls it has received.
`time` and `velocity` are `none` when the corresponding JS argument is
`undefined` (omitted by the caller). -/
inductive VoiceCall where
  | attack (val : JsonVal) (time : Option ℚ) (velocity : Option ℚ)
  | release (time : Option ℚ)
  | setParams (params : JsonVal)
  | setPreset (name : String)

/-- A voice, identified in the pool by its index, is observed through the
calls the pool has forwarded to it (in order). -/
abbrev Voice := List VoiceCall

/-- State of a `Tone.PolySynth`: `voices` is the `_voices` array (index =
creation order), `freeVoices` is the `_freeVoices` queue holding indices
into `voices`, and `activeVoices` is the `_activeVoices` JS object: an
insertion-ordered association list from stringified keys to either a bound
voice (`some v`) or `null` (`none`, an unbound key left in place by
`triggerRelease`). -/
structure PolySynth where
  voices : List Voice
  freeVoices : List Nat
  activeVoices : List (String × Option Nat)

/-- The `Tone.PolySynth` constructor with polyphony `n`: creates `n` voices
(each with an empty call log), seeds `_freeVoices` with all of them in
creation order, and starts with no active bindings.  The audio-graph
side effect (`v.connect(this.output)`) and the voice construction options
are external to the allocation logic and are not observed here. -/
def mkPolySynth (polyphony : Nat) : PolySynth :=
  { voices := List.replicate polyphony []
    freeVoices := List.range polyphony
    activeVoices := [] }

/-- Property read `this._activeVoices[k]` on the JS object, returning
`none` when the key is absent (`undefined`). -/
def getKey : List (String × Option Nat) → String → Option (Option Nat)
  | [], _ => none
  | (k', y) :: t, k => if k' = k then some y else getKey t k

/-- Property write `this._activeVoices[k] = x` on the JS object: updates
the existing entry in place, or appends a new one in insertion order. -/
def setKey : List (String × Option Nat) → String → Option Nat → List (String × Option Nat)
  | [], k, x => [(k, x)]
  | (k', y) :: t, k, x => if k' = k then (k', x) :: t else (k', y) :: setKey t k x

/-- The truthiness test `if (this._activeVoices[stringified])` used by both
`triggerAttack` and `triggerRelease`: a key is actively bound exactly when
it is present and not `null`. -/
def getActive (m : List (String × Option Nat)) (k : String) : Option Nat :=
  match getKey m k with
  | some (some v) => some v
  | _ => none

/-- The voices currently bound in the active map (one entry per non-null
binding, in key insertion order). -/
def boundVoices (m : List (String × Option Nat)) : List Nat :=
  m.filterMap Prod.snd

/-- Append a forwarded call to the log of voice `i`. -/
def recordCall (vs : List Voice) (i : Nat) (c : VoiceCall) : List Voice :=
  vs.set i (vs.getD i [] ++ [c])

/-- The body of the `triggerAttack` loop for one identity `val`
(lines 174-182 of the source): retrigger the bound voice if the key is
active, otherwise shift the front voice off the free queue, forward the
attack to it and bind the key; if the free queue is empty, do nothing. -/
def attackOne (s : PolySynth) (val : JsonVal) (time velocity : Option ℚ) : PolySynth :=
  let k := stringify val
  match getActive s.activeVoices k with
  | some v => { s with voices := recordCall s.voices v (VoiceCall.attack val time velocity) }
  | none =>
    match s.freeVoices with
    | [] => s
    | v :: rest =>
      { voices := recordCall s.voices v (VoiceCall.attack val time velocity)
        freeVoices := rest
        activeVoices := setKey s.activeVoices k (some v) }

/-- The `Array.isArray` normalization at the top of `triggerAttack` and
`triggerRelease`: an array argument is iterated element by element, any
other value is wrapped into a one-element batch. -/
def argToList : JsonVal → List JsonVal
  | JsonVal.arr vs => vs
  | v => [v]

/-- `Tone.PolySynth.prototype.triggerAttack` (lines 169-184). -/
def PolySynth.triggerAttack (s : PolySynth) (value : JsonVal)
    (time velocity : Option ℚ) : PolySynth :=
  (argToList value).foldl (fun acc v => attackOne acc v time velocity) s

/-- The body of the `triggerRelease` loop for one identity (lines 214-221):
if the key is actively bound, forward the release to the bound voice, push
it onto the back of the free queue and null out the binding; otherwise do
nothing. -/
def releaseOne (s : PolySynth) (val : JsonVal) (time : Option ℚ) : PolySynth :=
  let k := stringify val
  match getActive s.activeVoices k with
  | some v =>
    { voices := recordCall s.voices v (VoiceCall.release time)
      freeVoices := s.freeVoices ++ [v]
      activeVoices := setKey s.activeVoices k none }
  | none => s

/-- `Tone.PolySynth.prototype.triggerRelease` (lines 209-223). -/
def PolySynth.triggerRelease (s : PolySynth) (value : JsonVal)
    (time : Option ℚ) : PolySynth :=
  (argToList value).foldl (fun acc v => releaseOne acc v time) s

/-- Modelled from the spec: `Tone.prototype.toSeconds` (Tone core, not under
src/) resolves an optional time value to an absolute instant, defaulting to
the current time `now` of the external audio clock when the argument is
omitted. -/
def toSeconds (now : ℚ) : Option ℚ → ℚ
  | none => now
  | some t => t

/-- `Tone.PolySynth.prototype.triggerAttackRelease` (lines 196-200):
resolve `time` to seconds, trigger the attack at that instant, and trigger
the release of the same identities at `time + toSeconds duration`.  `now`
is the current time of the external clock read by `toSeconds`. -/
def PolySynth.triggerAttackRelease (s : PolySynth) (now : ℚ) (value : JsonVal)
    (duration time velocity : Option ℚ) : PolySynth :=
  let t := toSeconds now time
  let s' := s.triggerAttack value (some t) velocity
  s'.triggerRelease value (some (t + toSeconds now duration))

/-- Composition written from the spec's words, for comparison with
`PolySynth.triggerAttackRelease`: resolve `time` to an absolute instant
(defaulting to "now" from the external clock), issue the attack at that
instant, then issue the release of the same identities at the instant plus
the duration. -/
def attackReleaseSpec (s : PolySynth) (now : ℚ) (value : JsonVal)
    (duration time velocity : Option ℚ) : PolySynth :=
  let instant := toSeconds now time
  (s.triggerAttack value (some instant) velocity).triggerRelease value
    (some (instant + toSeconds now duration))

/-- `Tone.PolySynth.prototype.set` (lines 229-233): forwards the same
parameter bundle to every voice of the `_voices` array. -/
def PolySynth.set (s : PolySynth) (params : JsonVal) : PolySynth :=
  { s with voices := s.voices.map fun v => v ++ [VoiceCall.setParams params] }

/-- `Tone.PolySynth.prototype.setPreset` (lines 238-242): forwards the same
preset name to every voice of the `_voices` array. -/
def PolySynth.setPreset (s : PolySynth) (presetName : String) : PolySynth :=
  { s with voices := s.voices.map fun v => v ++ [VoiceCall.setPreset presetName] }

/-- Modelled from the spec: the Voice implementation (a Tone instrument,
not under src/) treats an omitted velocity as the full-scale value `1`
(JSDoc `[velocity=1]`); the pool forwards the argument opaquely. -/
def effectiveVelocity (velocity : Option ℚ) : ℚ :=
  velocity.getD 1

/-- One external call of the pool's allocation interface. -/
inductive PolyCall where
  | attack (value : JsonVal) (time velocity : Option ℚ)
  | release (value : JsonVal) (time : Option ℚ)

/-- Apply one external call to the pool state. -/
def step (s : PolySynth) : PolyCall → PolySynth
  | PolyCall.attack v t vel => s.triggerAttack v t vel
  | PolyCall.release v t => s.triggerRelease v t

/-- Run a sequence of attack/release calls from a state. -/
def runCalls (s : PolySynth) (cs : List PolyCall) : PolySynth :=
  cs.foldl step s

/-- The allocation invariant of the pool: free voices and bound voices are
duplicate-free, disjoint, drawn from the `n` pool voices, and together
account for all `n` of them. -/
structure PoolInv (n : Nat) (s : PolySynth) : Prop where
  free_nodup : s.freeVoices.Nodup
  bound_nodup : (boundVoices s.activeVoices).Nodup
  free_lt : ∀ v ∈ s.freeVoices, v < n
  bound_lt : ∀ v ∈ boundVoices s.activeVoices, v < n
  free_bound_disj : ∀ v ∈ s.freeVoices, v ∉ boundVoices s.activeVoices
  count : s.freeVoices.length + (boundVoices s.activeVoices).length = n

/-- An operation applied to the `Tone.Signal` controlling the feedback
amount: `setValue` sets it immediately, `linearRampToValueNow` ramps it to
the value over the given duration. -/
inductive SignalOp where
  | setValue (value : ℚ)
  | linearRampToValueNow (value : ℚ) (rampTime : ℚ)

/-- Whether a signal operation is a ramped transition. -/
def SignalOp.isRamp : SignalOp → Bool
  | SignalOp.linearRampToValueNow _ _ => true
  | _ => false

/-- The audio-graph endpoints wired by the `Tone.FeedbackEffect`
constructor. -/
inductive FBNode where
  | effectReturn
  | feedbackGain
  | effectSend
  | feedbackGainGain
  | feedbackSignal
deriving DecidableEq

/-- State of a `Tone.FeedbackEffect`: the initial value of the `feedback`
signal, the log of operations applied to that signal, and the audio-graph
connections made at construction. -/
structure FeedbackEffect where
  feedbackValue : ℚ
  feedbackOps : List SignalOp
  connections : List (FBNode × FBNode)

/-- `Tone.FeedbackEffect.defaults.feedback` (0.125). -/
def feedbackDefault : ℚ := 125 / 1000

/-- The `Tone.FeedbackEffect` constructor (lines 12-35): applies the
default feedback amount when none is given, and wires the feedback loop
`effectReturn.chain(_feedbackGain, effectSend)` together with
`feedback.connect(_feedbackGain.gain)`. -/
def mkFeedbackEffect (initialFeedback : Option ℚ) : FeedbackEffect :=
  { feedbackValue := initialFeedback.getD feedbackDefault
    feedbackOps := []
    connections := [(FBNode.effectReturn, FBNode.feedbackGain),
      (FBNode.feedbackGain, FBNode.effectSend),
      (FBNode.feedbackSignal, FBNode.feedbackGainGain)] }

/-- `Tone.FeedbackEffect.prototype.setFeedback` (lines 54-60).  The source
guards the ramped branch with the JS truthiness test `if (rampTime)`, so an
omitted (`undefined`) ramp time AND a ramp time of `0` both take the
immediate `setValue` branch. -/
def setFeedback (e : FeedbackEffect) (value : ℚ) (rampTime : Option ℚ) : FeedbackEffect :=
  match rampTime with
  | some r =>
    if r = 0 then
      { e with feedbackOps := e.feedbackOps ++ [SignalOp.setValue value] }
    else
      { e with feedbackOps := e.feedbackOps ++ [SignalOp.linearRampToValueNow value r] }
  | none => { e with feedbackOps := e.feedbackOps ++ [SignalOp.setValue value] }

/-- Writing to a key that is absent from the object appends it. -/
theorem setKey_of_getKey_none (m : List (String × Option Nat)) (k : String) (x : Option Nat)
    (h : getKey m k = none) : setKey m k x = m ++ [(k, x)] := by
  induction m with
  | nil => rfl
  | cons a t ih =>
    obtain ⟨k', y⟩ := a
    by_cases hk : k' = k
    · simp [getKey, hk] at h
    · simp only [getKey, hk, if_false] at h
      simp [setKey, hk, ih h]

/-- Reading back a key just written returns the written value. -/
theorem getKey_setKey_self (m : List (String × Option Nat)) (k : String) (x : Option Nat) :
    getKey (setKey m k x) k = some x := by
  induction m with
  | nil => simp [setKey, getKey]
  | cons a t ih =>
    obtain ⟨k', y⟩ := a
    by_cases hk : k' = k
    · simp [setKey, getKey, hk]
    · simp [setKey, getKey, hk, ih]

/-- Writing one key leaves every other key unchanged. -/
theorem getKey_setKey_ne (m : List (String × Option Nat)) (k j : String) (x : Option Nat)
    (h : j ≠ k) : getKey (setKey m k x) j = getKey m j := by
  have hkj : ¬ k = j := fun hk => h hk.symm
  induction m with
  | nil => simp [setKey, getKey, hkj]
  | cons a t ih =>
    obtain ⟨k', y⟩ := a
    by_cases hk : k' = k
    · subst hk
      simp [setKey, getKey, hkj]
    · simp [setKey, getKey, hk, ih]

/-- A key bound to a voice contributes that voice to the bound-voice list. -/
theorem mem_boundVoices_of_getKey (m : List (String × Option Nat)) (k : String) (v : Nat)
    (h : getKey m k = some (some v)) : v ∈ boundVoices m := by
  induction m with
  | nil => simp [getKey] at h
  | cons a t ih =>
    obtain ⟨k', y⟩ := a
    by_cases hk : k' = k
    · have hy : y = some v := by simpa [getKey, hk] using h
      subst hy
      simp [boundVoices, List.filterMap_cons]
    · have ht : getKey t k = some (some v) := by simpa [getKey, hk] using h
      cases y with
      | none => simpa [boundVoices, List.filterMap_cons] using ih ht
      | some w =>
        simp only [boundVoices, List.filterMap_cons]
        exact List.mem_cons_of_mem _ (ih ht)

/-- Binding a currently inactive key to voice `v` adds exactly `v` to the
bound-voice list (up to order). -/
theorem boundVoices_setKey_some (m : List (String × Option Nat)) (k : String) (v : Nat)
    (h : getActive m k = none) :
    (boundVoices (setKey m k (some v))).Perm (v :: boundVoices m) := by
  induction m with
  | nil => simp [setKey, boundVoices]
  | cons a t ih =>
    obtain ⟨k', y⟩ := a
    by_cases hk : k' = k
    · have hy : y = none := by
        cases y with
        | none => rfl
        | some w => simp [getActive, getKey, hk] at h
      subst hy
      simp [setKey, hk, boundVoices, List.filterMap_cons]
    · have ht : getActive t k = none := by
        simpa [getActive, getKey, hk] using h
      cases y with
      | none =>
        simpa [setKey, hk, boundVoices, List.filterMap_cons] using ih ht
      | some w =>
        simp only [setKey, hk, if_false, boundVoices, List.filterMap_cons]
        exact ((ih ht).cons w).trans (List.Perm.swap v w _)

/-- Nulling out a key bound to voice `v` removes exactly `v` from the
bound-voice list (up to order). -/
theorem boundVoices_setKey_none (m : List (String × Option Nat)) (k : String) (v : Nat)
    (h : getKey m k = some (some v)) :
    (boundVoices (setKey m k none)).Perm ((boundVoices m).erase v) := by
  induction m with
  | nil => simp [getKey] at h
  | cons a t ih =>
    obtain ⟨k', y⟩ := a
    by_cases hk : k' = k
    · have hy : y = some v := by simpa [getKey, hk] using h
      subst hy
      simp [setKey, hk, boundVoices, List.filterMap_cons]
    · have ht : getKey t k = some (some v) := by simpa [getKey, hk] using h
      cases y with
      | none =>
        simpa [setKey, hk, boundVoices, List.filterMap_cons] using ih ht
      | some w =>
        simp only [setKey, hk, if_false, boundVoices, List.filterMap_cons]
        by_cases hw : w = v
        · subst hw
          rw [List.erase_cons_head]
          have hwt : w ∈ boundVoices t := mem_boundVoices_of_getKey t k w ht
          exact ((ih ht).cons w).trans (List.perm_cons_erase hwt).symm
        · rw [List.erase_cons_tail (by simpa using fun hvw : w = v => hw hvw)]
          exact (ih ht).cons w

/-- The freshly constructed pool satisfies the allocation invariant. -/
theorem poolInv_mk (n : Nat) : PoolInv n (mkPolySynth n) := by
  refine ⟨List.nodup_range n, by simp [mkPolySynth, boundVoices], ?_, ?_, ?_, ?_⟩
  · intro v hv
    simpa [mkPolySynth] using hv
  · intro v hv
    simp [mkPolySynth, boundVoices] at hv
  · intro v _
    simp [mkPolySynth, boundVoices]
  · simp [mkPolySynth, boundVoices]

/-- An actively bound key is present in the object with a non-null voice. -/
theorem getKey_of_getActive_some (m : List (String × Option Nat)) (k : String) (v : Nat)
    (h : getActive m k = some v) : getKey m k = some (some v) := by
  unfold getActive at h
  cases hk : getKey m k with
  | none => simp [hk] at h
  | some y =>
    cases y with
    | none => simp [hk] at h
    | some w =>
      simp only [hk] at h
      simp only [Option.some.injEq] at h
      subst h
      rfl

/-- One iteration of the `triggerAttack` loop preserves the allocation
invariant. -/
theorem poolInv_attackOne (n : Nat) (s : PolySynth) (val : JsonVal) (t vel : Option ℚ)
    (h : PoolInv n s) : PoolInv n (attackOne s val t vel) := by
  rw [attackOne]
  cases hga : getActive s.activeVoices (stringify val) with
  | some v =>
    exact ⟨h.free_nodup, h.bound_nodup, h.free_lt, h.bound_lt, h.free_bound_disj, h.count⟩
  | none =>
    cases hf : s.freeVoices with
    | nil => exact h
    | cons v rest =>
      have hperm := boundVoices_setKey_some s.activeVoices (stringify val) v hga
      have hvfree : v ∈ s.freeVoices := by rw [hf]; exact List.mem_cons_self v rest
      have hvnb : v ∉ boundVoices s.activeVoices := h.free_bound_disj v hvfree
      have hfreen : s.freeVoices.Nodup := h.free_nodup
      rw [hf] at hfreen
      have hvrest : v ∉ rest := (List.nodup_cons.mp hfreen).1
      have hrestn : rest.Nodup := (List.nodup_cons.mp hfreen).2
      refine ⟨hrestn, ?_, ?_, ?_, ?_, ?_⟩
      · exact hperm.nodup_iff.mpr (List.nodup_cons.mpr ⟨hvnb, h.bound_nodup⟩)
      · intro w hw
        exact h.free_lt w (by rw [hf]; exact List.mem_cons_of_mem v hw)
      · intro w hw
        rcases List.mem_cons.mp (hperm.mem_iff.mp hw) with hwv | hwb
        · exact hwv ▸ h.free_lt v hvfree
        · exact h.bound_lt w hwb
      · intro w hw hwb
        rcases List.mem_cons.mp (hperm.mem_iff.mp hwb) with hwv | hwm
        · exact hvrest (hwv ▸ hw)
        · exact h.free_bound_disj w (by rw [hf]; exact List.mem_cons_of_mem v hw) hwm
      · have hlen := hperm.length_eq
        have hc := h.count
        rw [hf] at hc
        simp only [List.length_cons] at hc
        simp only [hlen, List.length_cons]
        omega

/-- One iteration of the `triggerRelease` loop preserves the allocation
invariant. -/
theorem poolInv_releaseOne (n : Nat) (s : PolySynth) (val : JsonVal) (t : Option ℚ)
    (h : PoolInv n s) : PoolInv n (releaseOne s val t) := by
  rw [releaseOne]
  cases hga : getActive s.activeVoices (stringify val) with
  | none => exact h
  | some v =>
    have hgk := getKey_of_getActive_some s.activeVoices (stringify val) v hga
    have hperm := boundVoices_setKey_none s.activeVoices (stringify val) v hgk
    have hvb : v ∈ boundVoices s.activeVoices :=
      mem_boundVoices_of_getKey s.activeVoices (stringify val) v hgk
    have hvnf : v ∉ s.freeVoices := fun hv => h.free_bound_disj v hv hvb
    refine ⟨?_, ?_, ?_, ?_, ?_, ?_⟩
    · refine List.Nodup.append h.free_nodup (List.nodup_singleton v) ?_
      intro w hw hw1
      rcases List.mem_singleton.mp hw1 with rfl
      exact h.free_bound_disj w hw hvb
    · exact hperm.nodup_iff.mpr (h.bound_nodup.erase v)
    · intro w hw
      rcases List.mem_append.mp hw with hwf | hw1
      · exact h.free_lt w hwf
      · rcases List.mem_singleton.mp hw1 with rfl
        exact h.bound_lt w hvb
    · intro w hw
      exact h.bound_lt w (List.mem_of_mem_erase (hperm.mem_iff.mp hw))
    · intro w hw hwb
      have hwe := hperm.mem_iff.mp hwb
      have hwm := (h.bound_nodup.mem_erase_iff.mp hwe)
      rcases List.mem_append.mp hw with hwf | hw1
      · exact h.free_bound_disj w hwf hwm.2
      · exact hwm.1 (List.mem_singleton.mp hw1)
    · have hlen := hperm.length_eq
      have hc := h.count
      have hbl : 0 < (boundVoices s.activeVoices).length := List.length_pos.mpr
        (fun he => by rw [he] at hvb; exact (List.not_mem_nil v) hvb)
      simp only [hlen, List.length_append, List.length_singleton,
        List.length_erase_of_mem hvb]
      omega

/-- `triggerAttack` preserves the allocation invariant. -/
theorem poolInv_triggerAttack (n : Nat) (s : PolySynth) (value : JsonVal) (t vel : Option ℚ)
    (h : PoolInv n s) : PoolInv n (s.triggerAttack value t vel) := by
  rw [PolySynth.triggerAttack]
  generalize argToList value = l
  induction l generalizing s with
  | nil => exact h
  | cons a l ih => exact ih (attackOne s a t vel) (poolInv_attackOne n s a t vel h)

/-- `triggerRelease` preserves the allocation invariant. -/
theorem poolInv_triggerRelease (n : Nat) (s : PolySynth) (value : JsonVal) (t : Option ℚ)
    (h : PoolInv n s) : PoolInv n (s.triggerRelease value t) := by
  rw [PolySynth.triggerRelease]
  generalize argToList value = l
  induction l generalizing s with
  | nil => exact h
  | cons a l ih => exact ih (releaseOne s a t) (poolInv_releaseOne n s a t h)

/-- Every external call preserves the allocation invariant. -/
theorem poolInv_step (n : Nat) (s : PolySynth) (c : PolyCall) (h : PoolInv n s) :
    PoolInv n (step s c) := by
  cases c with
  | attack v t vel => exact poolInv_triggerAttack n s v t vel h
  | release v t => exact poolInv_triggerRelease n s v t h

/-- Every sequence of external calls preserves the allocation invariant. -/
theorem poolInv_runCalls (n : Nat) (cs : List PolyCall) (s : PolySynth) (h : PoolInv n s) :
    PoolInv n (runCalls s cs) := by
  rw [runCalls]
  induction cs generalizing s with
  | nil => exact h
  | cons c cs ih => exact ih (step s c) (poolInv_step n s c h)

/-- Under the invariant, every pool voice is free or bound. -/
theorem poolInv_cover (n : Nat) (s : PolySynth) (h : PoolInv n s) (v : Nat) (hv : v < n) :
    v ∈ s.freeVoices ∨ v ∈ boundVoices s.activeVoices := by
  set L := s.freeVoices ++ boundVoices s.activeVoices with hL
  have hnodup : L.Nodup :=
    List.Nodup.append h.free_nodup h.bound_nodup
      (List.disjoint_left.mpr fun a ha => h.free_bound_disj a ha)
  have hsub : L.toFinset ⊆ Finset.range n := by
    intro a ha
    rcases List.mem_append.mp (List.mem_toFinset.mp ha) with haf | hab
    · exact Finset.mem_range.mpr (h.free_lt a haf)
    · exact Finset.mem_range.mpr (h.bound_lt a hab)
  have hcard : (Finset.range n).card ≤ L.toFinset.card := by
    rw [List.toFinset_card_of_nodup hnodup, Finset.card_range, hL,
      List.length_append]
    exact Nat.le_of_eq h.count.symm
  have heq := Finset.eq_of_subset_of_card_le hsub hcard
  have hvL : v ∈ L := by
    rw [← List.mem_toFinset, heq]
    exact Finset.mem_range.mpr hv
  exact List.mem_append.mp hvL

/-- C1: for every sequence of triggerAttack/triggerRelease calls on a pool
constructed with polyphony `n`, the free list and the set of voices bound in
the active map partition the pool: every pool voice is in at least one of
the two, no voice is simultaneously free and bound, and the size of the
free list plus the number of distinct bound voices equals `n`. -/
theorem pool_partition (n : Nat) (calls : List PolyCall) :
    (∀ v, v < n → (v ∈ (runCalls (mkPolySynth n) calls).freeVoices ∨
      v ∈ boundVoices (runCalls (mkPolySynth n) calls).activeVoices)) ∧
    (∀ v, v ∈ (runCalls (mkPolySynth n) calls).freeVoices →
      v ∉ boundVoices (runCalls (mkPolySynth n) calls).activeVoices) ∧
    (runCalls (mkPolySynth n) calls).freeVoices.length +
      (boundVoices (runCalls (mkPolySynth n) calls).activeVoices).toFinset.card = n := by
  have h := poolInv_runCalls n calls (mkPolySynth n) (poolInv_mk n)
  refine ⟨fun v hv => poolInv_cover n _ h v hv, fun v hv => h.free_bound_disj v hv, ?_⟩
  rw [List.toFinset_card_of_nodup h.bound_nodup]
  exact h.count

/-- Concrete check of the partition property after one attack on a
two-voice pool. -/
theorem pool_partition_witness :
    (0 ∈ (runCalls (mkPolySynth 2) [PolyCall.attack (JsonVal.str "A4") none none]).freeVoices ∨
      0 ∈ boundVoices
        (runCalls (mkPolySynth 2) [PolyCall.attack (JsonVal.str "A4") none none]).activeVoices) ∧
    (runCalls (mkPolySynth 2) [PolyCall.attack (JsonVal.str "A4") none none]).freeVoices.length +
      (boundVoices (runCalls (mkPolySynth 2)
        [PolyCall.attack (JsonVal.str "A4") none none]).activeVoices).toFinset.card = 2 :=
  ⟨(pool_partition 2 [PolyCall.attack (JsonVal.str "A4") none none]).1 0 (by decide),
   (pool_partition 2 [PolyCall.attack (JsonVal.str "A4") none none]).2.2⟩

/-- C2: attacking an identity whose key is unbound while the free list is
empty is a silent no-op for that identity: the state is unchanged, the key
stays unbound, and the remaining identities of a batch are processed from
the same state, independently of the dropped one. -/
theorem attack_exhausted_silent_drop (s : PolySynth) (val : JsonVal)
    (rest : List JsonVal) (t vel : Option ℚ)
    (hv : argToList val = [val])
    (hun : getActive s.activeVoices (stringify val) = none)
    (hfree : s.freeVoices = []) :
    s.triggerAttack val t vel = s ∧
    getActive (s.triggerAttack val t vel).activeVoices (stringify val) = none ∧
    s.triggerAttack (JsonVal.arr (val :: rest)) t vel =
      s.triggerAttack (JsonVal.arr rest) t vel := by
  have hone : attackOne s val t vel = s := by
    simp only [attackOne, hun, hfree]
  have hsingle : s.triggerAttack val t vel = s := by
    rw [PolySynth.triggerAttack, hv]
    simp only [List.foldl_cons, List.foldl_nil]
    exact hone
  refine ⟨hsingle, by rw [hsingle]; exact hun, ?_⟩
  rw [PolySynth.triggerAttack, PolySynth.triggerAttack]
  simp only [argToList, List.foldl_cons]
  rw [hone]

/-- Concrete check: on an exhausted one-voice pool, attacking a second
distinct note changes nothing. -/
theorem attack_exhausted_silent_drop_witness :
    (PolySynth.triggerAttack (mkPolySynth 1) (JsonVal.str "A4") none none).triggerAttack
        (JsonVal.str "D4") none none =
      PolySynth.triggerAttack (mkPolySynth 1) (JsonVal.str "A4") none none :=
  (attack_exhausted_silent_drop
    (PolySynth.triggerAttack (mkPolySynth 1) (JsonVal.str "A4") none none)
    (JsonVal.str "D4") [] none none rfl rfl rfl).1

/-- C3: attacking an identity whose key is already bound retriggers the
same voice: the attack is forwarded to the bound voice and neither the
active map nor the free list changes. -/
theorem attack_retrigger_reuses_voice (s : PolySynth) (val : JsonVal) (t vel : Option ℚ)
    (v : Nat) (hv : argToList val = [val])
    (hb : getActive s.activeVoices (stringify val) = some v) :
    (s.triggerAttack val t vel).activeVoices = s.activeVoices ∧
    (s.triggerAttack val t vel).freeVoices = s.freeVoices ∧
    (s.triggerAttack val t vel).voices =
      recordCall s.voices v (VoiceCall.attack val t vel) := by
  have hone : attackOne s val t vel =
      { s with voices := recordCall s.voices v (VoiceCall.attack val t vel) } := by
    simp only [attackOne, hb]
  rw [PolySynth.triggerAttack, hv]
  simp only [List.foldl_cons, List.foldl_nil, hone]
  exact ⟨trivial, trivial, trivial⟩

/-- Concrete check: re-attacking the sounding note A4 keeps voice 0 bound
to it, keeps voice 1 free, and forwards the second attack to voice 0. -/
theorem attack_retrigger_reuses_voice_witness :
    ((PolySynth.triggerAttack (mkPolySynth 2) (JsonVal.str "A4") none none).triggerAttack
        (JsonVal.str "A4") none none).activeVoices =
      (PolySynth.triggerAttack (mkPolySynth 2) (JsonVal.str "A4") none none).activeVoices ∧
    ((PolySynth.triggerAttack (mkPolySynth 2) (JsonVal.str "A4") none none).triggerAttack
        (JsonVal.str "A4") none none).freeVoices =
      (PolySynth.triggerAttack (mkPolySynth 2) (JsonVal.str "A4") none none).freeVoices :=
  ⟨(attack_retrigger_reuses_voice
      (PolySynth.triggerAttack (mkPolySynth 2) (JsonVal.str "A4") none none)
      (JsonVal.str "A4") none none 0 rfl rfl).1,
   (attack_retrigger_reuses_voice
      (PolySynth.triggerAttack (mkPolySynth 2) (JsonVal.str "A4") none none)
      (JsonVal.str "A4") none none 0 rfl rfl).2.1⟩

/-- C4: releasing an identity whose key is bound forwards the release to the
bound voice, appends that voice to the back of the free list, and leaves the
key unbound. -/
theorem release_bound_frees_voice (s : PolySynth) (val : JsonVal) (t : Option ℚ) (v : Nat)
    (hv : argToList val = [val])
    (hb : getActive s.activeVoices (stringify val) = some v) :
    (s.triggerRelease val t).voices = recordCall s.voices v (VoiceCall.release t) ∧
    (s.triggerRelease val t).freeVoices = s.freeVoices ++ [v] ∧
    getActive (s.triggerRelease val t).activeVoices (stringify val) = none := by
  have hone : releaseOne s val t =
      { voices := recordCall s.voices v (VoiceCall.release t)
        freeVoices := s.freeVoices ++ [v]
        activeVoices := setKey s.activeVoices (stringify val) none } := by
    simp only [releaseOne, hb]
  rw [PolySynth.triggerRelease, hv]
  simp only [List.foldl_cons, List.foldl_nil, hone]
  refine ⟨trivial, trivial, ?_⟩
  simp [getActive, getKey_setKey_self]

/-- Concrete check of the round trip: attack A4 on a two-voice pool, then
release it; voice 0 goes to the back of the free list ([1] ++ [0]) and A4 is
unbound afterwards. -/
theorem release_bound_frees_voice_witness :
    ((PolySynth.triggerAttack (mkPolySynth 2) (JsonVal.str "A4") none none).triggerRelease
        (JsonVal.str "A4") none).freeVoices = [1] ++ [0] ∧
    getActive ((PolySynth.triggerAttack (mkPolySynth 2)
        (JsonVal.str "A4") none none).triggerRelease
        (JsonVal.str "A4") none).activeVoices (stringify (JsonVal.str "A4")) = none :=
  ⟨(release_bound_frees_voice
      (PolySynth.triggerAttack (mkPolySynth 2) (JsonVal.str "A4") none none)
      (JsonVal.str "A4") none 0 rfl rfl).2.1,
   (release_bound_frees_voice
      (PolySynth.triggerAttack (mkPolySynth 2) (JsonVal.str "A4") none none)
      (JsonVal.str "A4") none 0 rfl rfl).2.2⟩

/-- C5: releasing an identity whose key is unbound is a no-op leaving the
whole state (free list, active map, every voice) unchanged, and releasing
the same identity twice in a row has the same effect as releasing it
once. -/
theorem release_unbound_noop_idempotent (s : PolySynth) (val : JsonVal) (t t' : Option ℚ)
    (hv : argToList val = [val]) :
    (getActive s.activeVoices (stringify val) = none → s.triggerRelease val t = s) ∧
    (s.triggerRelease val t).triggerRelease val t' = s.triggerRelease val t := by
  have hone : ∀ (u : PolySynth) (tt : Option ℚ),
      getActive u.activeVoices (stringify val) = none → releaseOne u val tt = u := by
    intro u tt hu
    simp only [releaseOne, hu]
  have hsingle : ∀ (u : PolySynth) (tt : Option ℚ),
      u.triggerRelease val tt = releaseOne u val tt := by
    intro u tt
    rw [PolySynth.triggerRelease, hv]
    simp only [List.foldl_cons, List.foldl_nil]
  have hkey : ∀ (u : PolySynth) (tt : Option ℚ),
      getActive (releaseOne u val tt).activeVoices (stringify val) = none := by
    intro u tt
    rw [releaseOne]
    cases hga : getActive u.activeVoices (stringify val) with
    | none => exact hga
    | some v => simp [getActive, getKey_setKey_self]
  constructor
  · intro hun
    rw [hsingle]
    exact hone s t hun
  · rw [hsingle s t, hsingle _ t']
    exact hone _ t' (hkey s t)

/-- Concrete check: releasing the never-attacked D4 is a no-op, and a second
release of D4 equals the first. -/
theorem release_unbound_noop_idempotent_witness :
    PolySynth.triggerRelease (mkPolySynth 2) (JsonVal.str "D4") none = mkPolySynth 2 ∧
    (PolySynth.triggerRelease (mkPolySynth 2) (JsonVal.str "D4") none).triggerRelease
        (JsonVal.str "D4") none =
      PolySynth.triggerRelease (mkPolySynth 2) (JsonVal.str "D4") none :=
  ⟨(release_unbound_noop_idempotent (mkPolySynth 2) (JsonVal.str "D4") none none rfl).1 rfl,
   (release_unbound_noop_idempotent (mkPolySynth 2) (JsonVal.str "D4") none none rfl).2⟩

/-- C6: `triggerAttackRelease` is observationally equal to resolving `time`
to an absolute instant (defaulting to now), issuing the attack at that
instant, and issuing the release of the same identities at the instant plus
the duration; the release carries the forwarded future timestamp rather
than being executed after a delay. -/
theorem attackRelease_refines (s : PolySynth) (now : ℚ) (value : JsonVal)
    (duration time velocity : Option ℚ) :
    s.triggerAttackRelease now value duration time velocity =
      attackReleaseSpec s now value duration time velocity ∧
    s.triggerAttackRelease now value duration time velocity =
      (s.triggerAttack value (some (toSeconds now time)) velocity).triggerRelease value
        (some (toSeconds now time + toSeconds now duration)) :=
  ⟨rfl, rfl⟩

/-- C7: `set` and `setPreset` forward the same parameter bundle or preset
name to every voice of the pool (free or active), leaving the pool size
unchanged. -/
theorem bulk_set_forwards_to_all (s : PolySynth) (params : JsonVal) (presetName : String)
    (i : Nat) (hi : i < s.voices.length) :
    (s.set params).voices.length = s.voices.length ∧
    (s.setPreset presetName).voices.length = s.voices.length ∧
    (s.set params).voices.getD i [] = s.voices.getD i [] ++ [VoiceCall.setParams params] ∧
    (s.setPreset presetName).voices.getD i [] =
      s.voices.getD i [] ++ [VoiceCall.setPreset presetName] := by
  refine ⟨by simp [PolySynth.set], by simp [PolySynth.setPreset], ?_, ?_⟩
  · simp [PolySynth.set, List.getD_eq_getElem?_getD, List.getElem?_map,
      List.getElem?_eq_getElem hi]
  · simp [PolySynth.setPreset, List.getD_eq_getElem?_getD, List.getElem?_map,
      List.getElem?_eq_getElem hi]

/-- Concrete check: after `set` on a two-voice pool with one active note,
voice 0 (active) and voice 1 (free) both receive the bundle. -/
theorem bulk_set_forwards_to_all_witness :
    ((PolySynth.triggerAttack (mkPolySynth 2) (JsonVal.str "A4") none none).set
        (JsonVal.obj [("portamento", JsonVal.num 1)])).voices.getD 1 [] =
      (PolySynth.triggerAttack (mkPolySynth 2)
        (JsonVal.str "A4") none none).voices.getD 1 [] ++
        [VoiceCall.setParams (JsonVal.obj [("portamento", JsonVal.num 1)])] :=
  (bulk_set_forwards_to_all
    (PolySynth.triggerAttack (mkPolySynth 2) (JsonVal.str "A4") none none)
    (JsonVal.obj [("portamento", JsonVal.num 1)]) "Pianoetta" 1 (by decide)).2.2.1

/-- C8: two identity values with equal structural serializations resolve to
the same canonical key: attacking with one binds a voice that a lookup or a
release through the other reaches, so attack with `v1` followed by release
with `v2` frees the voice bound by the attack. -/
theorem same_serialization_same_note (s : PolySynth) (v1 v2 : JsonVal)
    (t t' vel : Option ℚ) (w : Nat) (rest : List Nat)
    (hser : stringify v1 = stringify v2)
    (hv1 : argToList v1 = [v1]) (hv2 : argToList v2 = [v2])
    (hun : getActive s.activeVoices (stringify v1) = none)
    (hfree : s.freeVoices = w :: rest) :
    getActive (s.triggerAttack v1 t vel).activeVoices (stringify v2) = some w ∧
    ((s.triggerAttack v1 t vel).triggerRelease v2 t').freeVoices = rest ++ [w] ∧
    getActive ((s.triggerAttack v1 t vel).triggerRelease v2 t').activeVoices
      (stringify v1) = none := by
  have h1 : s.triggerAttack v1 t vel =
      { voices := recordCall s.voices w (VoiceCall.attack v1 t vel)
        freeVoices := rest
        activeVoices := setKey s.activeVoices (stringify v1) (some w) } := by
    rw [PolySynth.triggerAttack, hv1]
    simp only [List.foldl_cons, List.foldl_nil, attackOne, hun, hfree]
  have hget : getActive (s.triggerAttack v1 t vel).activeVoices (stringify v2) = some w := by
    rw [h1, ← hser]
    simp [getActive, getKey_setKey_self]
  have h2 : (s.triggerAttack v1 t vel).triggerRelease v2 t' =
      { voices := recordCall (s.triggerAttack v1 t vel).voices w (VoiceCall.release t')
        freeVoices := (s.triggerAttack v1 t vel).freeVoices ++ [w]
        activeVoices := setKey (s.triggerAttack v1 t vel).activeVoices
          (stringify v2) none } := by
    rw [PolySynth.triggerRelease, hv2]
    simp only [List.foldl_cons, List.foldl_nil, releaseOne, hget]
  refine ⟨hget, ?_, ?_⟩
  · rw [h2, h1]
  · rw [h2, hser]
    simp [getActive, getKey_setKey_self]

/-- Concrete check with two structurally equal object identities. -/
theorem same_serialization_same_note_witness :
    ((PolySynth.triggerAttack (mkPolySynth 1)
        (JsonVal.obj [("note", JsonVal.str "A4")]) none none).triggerRelease
        (JsonVal.obj [("note", JsonVal.str "A4")]) none).freeVoices = [] ++ [0] :=
  (same_serialization_same_note (mkPolySynth 1)
    (JsonVal.obj [("note", JsonVal.str "A4")]) (JsonVal.obj [("note", JsonVal.str "A4")])
    none none none 0 [] rfl rfl rfl rfl rfl).2.1

/-- C9: when the velocity argument is omitted, the attack forwarded to the
allocated or retriggered voice carries the omitted marker, which the voice
resolves to the full-scale velocity 1. -/
theorem attack_velocity_defaults_full_scale (s : PolySynth) (val : JsonVal)
    (t : Option ℚ) (v : Nat) (hv : argToList val = [val])
    (h : getActive s.activeVoices (stringify val) = some v ∨
      (getActive s.activeVoices (stringify val) = none ∧ s.freeVoices.head? = some v)) :
    (s.triggerAttack val t none).voices =
      recordCall s.voices v (VoiceCall.attack val t none) ∧
    effectiveVelocity none = 1 := by
  refine ⟨?_, rfl⟩
  rw [PolySynth.triggerAttack, hv]
  simp only [List.foldl_cons, List.foldl_nil]
  rcases h with hb | ⟨hun, hh⟩
  · simp only [attackOne, hb]
  · cases hf : s.freeVoices with
    | nil => rw [hf] at hh; simp at hh
    | cons w rest =>
      rw [hf] at hh
      simp only [List.head?_cons, Option.some.injEq] at hh
      subst hh
      simp only [attackOne, hun, hf]

/-- Concrete check: attacking A4 with no velocity forwards an attack with
the omitted marker to voice 0, and the effective velocity is 1. -/
theorem attack_velocity_defaults_full_scale_witness :
    (PolySynth.triggerAttack (mkPolySynth 2) (JsonVal.str "A4") none none).voices =
      recordCall (mkPolySynth 2).voices 0
        (VoiceCall.attack (JsonVal.str "A4") none none) ∧
    effectiveVelocity none = 1 :=
  attack_velocity_defaults_full_scale (mkPolySynth 2) (JsonVal.str "A4") none 0 rfl
    (Or.inr ⟨rfl, rfl⟩)

/-- C10 counterexample: calling `setFeedback` with the ramp time `0` given
does not start a ramped transition — the JS truthiness guard
`if (rampTime)` treats `0` as absent, so the signal is set immediately. -/
theorem setFeedback_zero_ramp_counterexample :
    (setFeedback (mkFeedbackEffect none) 1 (some 0)).feedbackOps =
      [SignalOp.setValue 1] ∧
    ((setFeedback (mkFeedbackEffect none) 1 (some 0)).feedbackOps.all
      fun op => !op.isRamp) = true := by
  constructor
  · rfl
  · rfl

/-- C10 (amended): with a nonzero ramp time given, `setFeedback` starts a
ramped transition of the feedback control signal to the value over that
duration; with the ramp time omitted or zero it sets the signal to the
value immediately; in all cases the feedback signal controls the gain stage
wiring the effect's return path back into its send path. -/
theorem setFeedback_spec (e : FeedbackEffect) (value r : ℚ) (init : Option ℚ) :
    (r ≠ 0 → (setFeedback e value (some r)).feedbackOps =
      e.feedbackOps ++ [SignalOp.linearRampToValueNow value r]) ∧
    (setFeedback e value none).feedbackOps = e.feedbackOps ++ [SignalOp.setValue value] ∧
    (setFeedback e value (some 0)).feedbackOps =
      e.feedbackOps ++ [SignalOp.setValue value] ∧
    (FBNode.effectReturn, FBNode.feedbackGain) ∈ (mkFeedbackEffect init).connections ∧
    (FBNode.feedbackGain, FBNode.effectSend) ∈ (mkFeedbackEffect init).connections ∧
    (FBNode.feedbackSignal, FBNode.feedbackGainGain) ∈
      (mkFeedbackEffect init).connections := by
  refine ⟨?_, rfl, by simp [setFeedback], ?_, ?_, ?_⟩
  · intro hr
    simp [setFeedback, hr]
  · simp [mkFeedbackEffect]
  · simp [mkFeedbackEffect]
  · simp [mkFeedbackEffect]

/-- Concrete check: ramping to 1/2 over 2 seconds logs a ramp, an omitted
ramp time logs an immediate set, and the constructor wires the feedback
loop. -/
theorem setFeedback_spec_witness :
    (setFeedback (mkFeedbackEffect none) (1 / 2) (some 2)).feedbackOps =
      [] ++ [SignalOp.linearRampToValueNow (1 / 2) 2] ∧
    (setFeedback (mkFeedbackEffect none) (1 / 2) none).feedbackOps =
      [] ++ [SignalOp.setValue (1 / 2)] ∧
    (FBNode.effectReturn, FBNode.feedbackGain) ∈ (mkFeedbackEffect none).connections :=
  ⟨(setFeedback_spec (mkFeedbackEffect none) (1 / 2) 2 none).1 (by norm_num),
   (setFeedback_spec (mkFeedbackEffect none) (1 / 2) 2 none).2.1,
   (setFeedback_spec (mkFeedbackEffect none) (1 / 2) 2 none).2.2.2.1⟩

end Tone
